import Mathlib

/-!
# Verification of `ezidbkv` (IndexedDB key-value wrapper)

Shallow embedding of the two `IDBKV` classes of the repository:

* the lazy variant (`src/unnamed/part_000`): constructor records configuration
  only; `resolve()` opens the database on first use and caches the resolved
  `IDBDatabase` in `this.instance`; public operations
  `get/set/update/delete/clear/keys/values/has`;
* the eager variant (`src/src/index.ts`): the constructor calls `this.open()`
  synchronously, so the open request is issued at construction and the
  (pending) promise is cached in `this.promise`.

The data plane (the object-store contents manipulated through
`get`/`put`/`delete`/`clear`/`getAllKeys`/`getAll`/`getKey` requests) is
embedded as a key-sorted association list, mirroring IndexedDB's key-ordered
object store.  The host's `undefined` sentinel is modelled explicitly by
`JSVal.undef`, since `request.result` of a `get` on a missing key is
`undefined`, and `undefined` is itself a storable value.

The connection plane (constructor / `resolve` / open requests) is embedded as
a small-step interpreter over explicit scheduler actions, so that the
interleaving-sensitive claims (single open request, behaviour after a failed
open) can be settled on concrete schedules.
-/

/-- A JavaScript value that may be the `undefined` sentinel.
`JSVal.val v` is an ordinary value, `JSVal.undef` is `undefined`. -/
inductive JSVal (V : Type) : Type
  | undef : JSVal V
  | val : V → JSVal V
deriving DecidableEq, Repr

/-- The contents of the single object store: records in ascending key order,
as IndexedDB keeps them.  Values are JS values (possibly `undefined`). -/
abbrev Table (K V : Type) := List (K × JSVal V)

section StoreRequests

variable {K V : Type} [LinearOrder K]

/-- Host request `store.get(key)`: `request.result` is the stored value of
the record with key `k`, or `undefined` if there is no such record. -/
def storeGet : Table K V → K → JSVal V
  | [], _ => JSVal.undef
  | (k', v) :: rest, k => if k = k' then v else storeGet rest k

/-- Host request `store.put(val, key)`: insert-or-overwrite keeping the
records in ascending key order (IndexedDB object stores are key-ordered and
keys are unique). -/
def storePut : Table K V → K → JSVal V → Table K V
  | [], k, v => [(k, v)]
  | (k', v') :: rest, k, v =>
    if k < k' then (k, v) :: (k', v') :: rest
    else if k = k' then (k, v) :: rest
    else (k', v') :: storePut rest k v

/-- Host request `store.delete(key)`: remove the record with key `k` if
present; a no-op if absent (the request succeeds either way). -/
def storeDelete (t : Table K V) (k : K) : Table K V :=
  t.filter (fun p => decide (p.1 ≠ k))

/-- Host request `store.clear()`: remove all records. -/
def storeClear : Table K V := []

/-- Host request `store.getAllKeys()`: all keys in ascending key order. -/
def storeGetAllKeys (t : Table K V) : List K :=
  t.map Prod.fst

/-- Host request `store.getAll()`: all values, in the same (ascending key)
record order as `getAllKeys`. -/
def storeGetAll (t : Table K V) : List (JSVal V) :=
  t.map Prod.snd

/-- Host request `store.getKey(key)`: `request.result` is the stored key of
the record with key `k`, or `undefined` if there is no such record. -/
def storeGetKey : Table K V → K → JSVal K
  | [], _ => JSVal.undef
  | (k', _) :: rest, k => if k = k' then JSVal.val k' else storeGetKey rest k

/-- The representation invariant of the object store: records are in strictly
ascending key order (hence keys are unique). -/
def storeSorted (t : Table K V) : Prop :=
  List.Pairwise (fun a b => a.1 < b.1) t

instance (t : Table K V) : Decidable (storeSorted t) :=
  inferInstanceAs (Decidable (List.Pairwise _ t))

end StoreRequests

section PublicOps

variable {K V Err : Type} [LinearOrder K]

/-- `IDBKV.get(key)` (success path): resolves with `request.result` of
`store.get(key)` — the stored value, or `undefined` for a missing key. -/
def IDBKV.get (t : Table K V) (k : K) : JSVal V :=
  storeGet t k

/-- `IDBKV.set(key, val)` (success path): issues `store.put(val, key)` and
resolves with no value; the new table is the put result. -/
def IDBKV.set (t : Table K V) (k : K) (v : JSVal V) : Table K V :=
  storePut t k v

/-- `IDBKV.delete(key)` (success path): issues `store.delete(key)`. -/
def IDBKV.delete (t : Table K V) (k : K) : Table K V :=
  storeDelete t k

/-- `IDBKV.clear()` (success path): issues `store.clear()`. -/
def IDBKV.clear (_ : Table K V) : Table K V :=
  storeClear

/-- `IDBKV.keys()` (success path): resolves with `store.getAllKeys()`. -/
def IDBKV.keys (t : Table K V) : List K :=
  storeGetAllKeys t

/-- `IDBKV.values()` (success path): resolves with `store.getAll()`. -/
def IDBKV.values (t : Table K V) : List (JSVal V) :=
  storeGetAll t

/-- `IDBKV.has(key)` (success path): issues `store.getKey(key)` and resolves
with `request.result !== undefined`. -/
def IDBKV.has (t : Table K V) (k : K) : Bool :=
  match storeGetKey t k with
  | JSVal.undef => false
  | JSVal.val _ => true

/-- `IDBKV.update(key, action)` (success path): `const value = await
this.get(key); const next = await action(value); await this.set(key, next)` —
read through `get`, transform, write back through `set`. -/
def IDBKV.update (t : Table K V) (k : K) (action : JSVal V → JSVal V) : Table K V :=
  IDBKV.set t k (action (IDBKV.get t k))

/-- Fallible `IDBKV.get`: the host either fires `request.onerror` with error
`e` (the promise rejects with `e`) or fires `request.onsuccess` (the promise
resolves with `request.result`).  `fault` is the host's choice. -/
def IDBKV.getF (fault : Option Err) (t : Table K V) (k : K) : Except Err (JSVal V) :=
  match fault with
  | some e => Except.error e
  | none => Except.ok (storeGet t k)

/-- Fallible `IDBKV.set`: on host error the promise rejects and the
transaction aborts (table unchanged is represented by no table being
produced); on success the table is the put result. -/
def IDBKV.setF (fault : Option Err) (t : Table K V) (k : K) (v : JSVal V) :
    Except Err (Table K V) :=
  match fault with
  | some e => Except.error e
  | none => Except.ok (storePut t k v)

/-- Fallible `IDBKV.has`. -/
def IDBKV.hasF (fault : Option Err) (t : Table K V) (k : K) : Except Err Bool :=
  match fault with
  | some e => Except.error e
  | none => Except.ok (IDBKV.has t k)

/-- Fallible `IDBKV.delete`. -/
def IDBKV.deleteF (fault : Option Err) (t : Table K V) (k : K) :
    Except Err (Table K V) :=
  match fault with
  | some e => Except.error e
  | none => Except.ok (storeDelete t k)

/-- Fallible `IDBKV.update`: `await this.get(key)` (rejection propagates out
of the `async` function), then `await action(value)` (a rejected transform
propagates), then `await this.set(key, next)`.  `gFault`/`sFault` are the
host's choices for the read and write requests; the transform may itself
fail. -/
def IDBKV.updateF (gFault sFault : Option Err)
    (action : JSVal V → Except Err (JSVal V)) (t : Table K V) (k : K) :
    Except Err (Table K V) :=
  match IDBKV.getF gFault t k with
  | Except.error e => Except.error e
  | Except.ok v =>
    match action v with
    | Except.error e => Except.error e
    | Except.ok next => IDBKV.setF sFault t k next

/-- The table contents after an operation returning `r`: unchanged when the
operation rejected (no write was committed). -/
def afterOp (r : Except Err (Table K V)) (t : Table K V) : Table K V :=
  match r with
  | Except.ok t2 => t2
  | Except.error _ => t

end PublicOps

/-! ## Connection plane

Small-step interpreter for the connection lifecycle.  `C` is the type of
connection handles (`IDBDatabase`), `E` the type of open errors.  A promise
settlement is an `Outcome`. -/

/-- Settlement of an open request: the host fires `onsuccess` with a
connection, or `onerror` with an error. -/
inductive Outcome (E C : Type) : Type
  | ok : C → Outcome E C
  | err : E → Outcome E C
deriving DecidableEq, Repr

/-- The progress of one call to the lazy variant's `resolve()`:
`start` — the call's synchronous prefix has not run yet;
`awaiting id` — the call issued open request `id` and is suspended on its
`await`; `done r` — the call returned (`ok`) or threw (`err`). -/
inductive Phase (E C : Type) : Type
  | start : Phase E C
  | awaiting : Nat → Phase E C
  | done : Outcome E C → Phase E C
deriving DecidableEq, Repr

/-- Configuration of a lazy-variant handle (`src/unnamed/part_000`) together
with a set of in-flight `resolve()` calls:
`inst` is `this.instance`; `calls` the phases of the resolve calls;
`opens` the ids of `indexedDB.open` requests issued so far, in issue order;
`nextId` the next fresh request id. -/
structure LazyCfg (E C : Type) : Type where
  inst : Option C
  calls : List (Phase E C)
  opens : List Nat
  nextId : Nat
deriving DecidableEq, Repr

/-- Scheduler action for the lazy model: `run i` runs the synchronous prefix
of call `i` (the `if (!this.instance)` check and, when the instance is
absent, the synchronous `indexedDB.open` inside the promise executor);
`complete id r` is the host settling open request `id` with outcome `r`,
which resumes the call awaiting that request. -/
inductive LazyAct (E C : Type) : Type
  | run : Nat → LazyAct E C
  | complete : Nat → Outcome E C → LazyAct E C
deriving DecidableEq, Repr

/-- Resume a call awaiting request `id` with outcome `r`: on `ok c` the body
executes `this.instance = instance; return instance`; on `err e` the `await`
throws, so the call ends in `done (err e)` and `this.instance` stays unset. -/
def phaseResolve (id : Nat) (r : Outcome E C) : Phase E C → Phase E C
  | Phase.awaiting j => if j = id then Phase.done r else Phase.awaiting j
  | p => p

/-- Whether some call is suspended on open request `id`. -/
def anyAwaiting (id : Nat) (calls : List (Phase E C)) : Bool :=
  calls.any fun p =>
    match p with
    | Phase.awaiting j => j == id
    | _ => false

/-- One step of the lazy model.  `run i`: if call `i` has not started, it
checks `this.instance`; a cached instance is returned at once, otherwise the
call issues a fresh open request and suspends.  `complete id r`: the host
settles request `id`; the awaiting call resumes, and on success it assigns
`this.instance`. -/
def lazyStep (cfg : LazyCfg E C) : LazyAct E C → LazyCfg E C
  | LazyAct.run i =>
    match cfg.calls[i]? with
    | some Phase.start =>
      match cfg.inst with
      | some c => { cfg with calls := cfg.calls.set i (Phase.done (Outcome.ok c)) }
      | none =>
        { inst := cfg.inst,
          calls := cfg.calls.set i (Phase.awaiting cfg.nextId),
          opens := cfg.opens ++ [cfg.nextId],
          nextId := cfg.nextId + 1 }
    | _ => cfg
  | LazyAct.complete id r =>
    { inst :=
        (match r with
         | Outcome.ok c => if anyAwaiting id cfg.calls then some c else cfg.inst
         | Outcome.err _ => cfg.inst),
      calls := cfg.calls.map (phaseResolve id r),
      opens := cfg.opens,
      nextId := cfg.nextId }

/-- Run a schedule of actions from a configuration. -/
def lazyRun (cfg : LazyCfg E C) (acts : List (LazyAct E C)) : LazyCfg E C :=
  acts.foldl lazyStep cfg

/-- The lazy variant's constructor
(`public constructor(private db: string, private store = "kv") {}`): it only
records configuration — `this.instance` is unset, no open request has been
issued.  `n` is the number of `resolve()` calls that public operations will
subsequently make (all still at `start`). -/
def lazyConstruct (E C : Type) (n : Nat) : LazyCfg E C :=
  { inst := none, calls := List.replicate n Phase.start, opens := [], nextId := 0 }

/-- The progress of one awaiter of the eager variant's cached `this.promise`:
it has not run, is suspended on the shared promise, or is done. -/
inductive EPhase (E C : Type) : Type
  | start : EPhase E C
  | awaiting : EPhase E C
  | done : Outcome E C → EPhase E C
deriving DecidableEq, Repr

/-- Configuration of an eager-variant handle (`src/src/index.ts`):
`settled` is the settlement state of `this.promise` (set once);
`calls` the phases of the operations awaiting it; `opens` as in the lazy
model. -/
structure EagerCfg (E C : Type) : Type where
  settled : Option (Outcome E C)
  calls : List (EPhase E C)
  opens : List Nat
deriving DecidableEq, Repr

/-- Scheduler action for the eager model: `run i` runs operation `i` up to
its `await this.promise`; `completeP r` is the host settling the one open
request behind `this.promise` (a promise settles at most once — later
settlements are ignored). -/
inductive EAct (E C : Type) : Type
  | run : Nat → EAct E C
  | completeP : Outcome E C → EAct E C
deriving DecidableEq, Repr

/-- One step of the eager model.  Operations never issue open requests; they
only await the promise cached at construction. -/
def eagerStep (cfg : EagerCfg E C) : EAct E C → EagerCfg E C
  | EAct.run i =>
    match cfg.calls[i]? with
    | some EPhase.start =>
      match cfg.settled with
      | some r => { cfg with calls := cfg.calls.set i (EPhase.done r) }
      | none => { cfg with calls := cfg.calls.set i EPhase.awaiting }
    | _ => cfg
  | EAct.completeP r =>
    match cfg.settled with
    | some _ => cfg
    | none =>
      { settled := some r,
        calls := cfg.calls.map fun p =>
          match p with
          | EPhase.awaiting => EPhase.done r
          | q => q,
        opens := cfg.opens }

/-- Run a schedule of actions on an eager-variant configuration. -/
def eagerRun (cfg : EagerCfg E C) (acts : List (EAct E C)) : EagerCfg E C :=
  acts.foldl eagerStep cfg

/-- The eager variant's constructor
(`public constructor(...) { this.promise = this.open(); }`): `this.open()`
runs the promise executor synchronously, which calls
`indexedDB.open(this.db, 1)` — so open request `0` is issued during
construction, before any operation exists.  `n` is the number of operations
that will subsequently await the cached promise. -/
def eagerConstruct (E C : Type) (n : Nat) : EagerCfg E C :=
  { settled := none, calls := List.replicate n EPhase.start, opens := [0] }

/-! ## Data-plane lemmas -/

section DataLemmas

variable {K V : Type} [LinearOrder K]

theorem storeGet_put_self (t : Table K V) (k : K) (v : JSVal V) :
    storeGet (storePut t k v) k = v := by
  induction t with
  | nil => simp [storePut, storeGet]
  | cons hd tl ih =>
    obtain ⟨k', v'⟩ := hd
    by_cases hlt : k < k'
    · simp [storePut, hlt, storeGet]
    · by_cases heq : k = k'
      · simp [storePut, hlt, heq, storeGet]
      · have hne : ¬ k = k' := heq
        simp [storePut, hlt, heq, storeGet, hne, ih]

theorem storeGetKey_put_self (t : Table K V) (k : K) (v : JSVal V) :
    storeGetKey (storePut t k v) k = JSVal.val k := by
  induction t with
  | nil => simp [storePut, storeGetKey]
  | cons hd tl ih =>
    obtain ⟨k', v'⟩ := hd
    by_cases hlt : k < k'
    · simp [storePut, hlt, storeGetKey]
    · by_cases heq : k = k'
      · simp [storePut, hlt, heq, storeGetKey]
      · simp [storePut, hlt, heq, storeGetKey, ih]

theorem storeGet_not_mem (t : Table K V) (k : K)
    (h : k ∉ t.map Prod.fst) : storeGet t k = JSVal.undef := by
  induction t with
  | nil => simp [storeGet]
  | cons hd tl ih =>
    obtain ⟨k', v'⟩ := hd
    simp only [List.map_cons, List.mem_cons] at h
    push_neg at h
    simp [storeGet, h.1, ih h.2]

theorem storeGetKey_not_mem (t : Table K V) (k : K)
    (h : k ∉ t.map Prod.fst) : storeGetKey t k = JSVal.undef := by
  induction t with
  | nil => simp [storeGetKey]
  | cons hd tl ih =>
    obtain ⟨k', v'⟩ := hd
    simp only [List.map_cons, List.mem_cons] at h
    push_neg at h
    simp [storeGetKey, h.1, ih h.2]

theorem has_put_self (t : Table K V) (k : K) (v : JSVal V) :
    IDBKV.has (storePut t k v) k = true := by
  simp [IDBKV.has, storeGetKey_put_self]

theorem has_not_mem (t : Table K V) (k : K)
    (h : k ∉ t.map Prod.fst) : IDBKV.has t k = false := by
  simp [IDBKV.has, storeGetKey_not_mem t k h]

theorem has_eq_mem_keys (t : Table K V) (k : K) :
    IDBKV.has t k = true ↔ k ∈ t.map Prod.fst := by
  induction t with
  | nil => simp [IDBKV.has, storeGetKey]
  | cons hd tl ih =>
    obtain ⟨k', v'⟩ := hd
    by_cases heq : k = k'
    · simp [IDBKV.has, storeGetKey, heq]
    · simpa [IDBKV.has, storeGetKey, heq] using ih

theorem storeDelete_keys_not_mem (t : Table K V) (k : K) :
    k ∉ (storeDelete t k).map Prod.fst := by
  intro hmem
  rcases List.mem_map.mp hmem with ⟨p, hp, hpk⟩
  have hpf := List.mem_filter.mp hp
  have hne : p.1 ≠ k := by simpa using hpf.2
  exact hne hpk

theorem storeGet_delete_self (t : Table K V) (k : K) :
    storeGet (storeDelete t k) k = JSVal.undef :=
  storeGet_not_mem _ _ (storeDelete_keys_not_mem t k)

theorem has_delete_self (t : Table K V) (k : K) :
    IDBKV.has (storeDelete t k) k = false :=
  has_not_mem _ _ (storeDelete_keys_not_mem t k)

theorem storeDelete_not_mem (t : Table K V) (k : K)
    (h : k ∉ t.map Prod.fst) : storeDelete t k = t := by
  apply List.filter_eq_self.mpr
  intro p hp
  have : p.1 ≠ k := by
    intro hk
    exact h (List.mem_map.mpr ⟨p, hp, hk⟩)
  simpa using this

end DataLemmas

/-! ## Sortedness and uniqueness lemmas -/

section SortedLemmas

variable {K V : Type} [LinearOrder K]

/-- Number of records of the table carrying key `k`. -/
def countKey (t : Table K V) (k : K) : Nat :=
  (t.filter (fun p => decide (p.1 = k))).length

theorem countKey_eq_zero (t : Table K V) (k : K)
    (h : k ∉ t.map Prod.fst) : countKey t k = 0 := by
  simp only [countKey, List.length_eq_zero, List.filter_eq_nil_iff]
  intro p hp
  simp only [decide_eq_true_eq]
  intro hk
  exact h (List.mem_map.mpr ⟨p, hp, hk⟩)

theorem mem_keys_put (t : Table K V) (k : K) (v : JSVal V) (a : K)
    (h : a ∈ (storePut t k v).map Prod.fst) :
    a = k ∨ a ∈ t.map Prod.fst := by
  induction t with
  | nil => simpa [storePut] using h
  | cons hd tl ih =>
    obtain ⟨k', v'⟩ := hd
    by_cases hlt : k < k'
    · simp only [storePut, if_pos hlt, List.map_cons, List.mem_cons] at h ⊢
      tauto
    · by_cases heq : k = k'
      · simp only [storePut, if_neg hlt, if_pos heq, List.map_cons, List.mem_cons] at h ⊢
        tauto
      · simp only [storePut, if_neg hlt, if_neg heq, List.map_cons, List.mem_cons] at h ⊢
        rcases h with h | h
        · tauto
        · rcases ih h with h2 | h2 <;> tauto

theorem sorted_put (t : Table K V) (k : K) (v : JSVal V)
    (hs : storeSorted t) : storeSorted (storePut t k v) := by
  induction t with
  | nil => simp [storePut, storeSorted]
  | cons hd tl ih =>
    obtain ⟨k', v'⟩ := hd
    rw [storeSorted, List.pairwise_cons] at hs
    obtain ⟨hhead, htl⟩ := hs
    by_cases hlt : k < k'
    · rw [storeSorted]
      simp only [storePut, if_pos hlt]
      rw [List.pairwise_cons]
      refine ⟨?_, ?_⟩
      · intro b hb
        rcases List.mem_cons.mp hb with rfl | hb2
        · exact hlt
        · exact lt_trans hlt (hhead b hb2)
      · rw [List.pairwise_cons]
        exact ⟨hhead, htl⟩
    · by_cases heq : k = k'
      · rw [storeSorted]
        simp only [storePut, if_neg hlt, if_pos heq]
        rw [List.pairwise_cons]
        refine ⟨?_, htl⟩
        intro b hb
        exact heq ▸ hhead b hb
      · have hgt : k' < k := by
          rcases lt_trichotomy k k' with h | h | h
          · exact absurd h hlt
          · exact absurd h heq
          · exact h
        rw [storeSorted]
        simp only [storePut, if_neg hlt, if_neg heq]
        rw [List.pairwise_cons]
        refine ⟨?_, ih htl⟩
        intro b hb
        have hbk := mem_keys_put tl k v b.1 (List.mem_map.mpr ⟨b, hb, rfl⟩)
        rcases hbk with rfl | hbmem
        · exact hgt
        · rcases List.mem_map.mp hbmem with ⟨p, hp, hpb⟩
          exact hpb ▸ hhead p hp

theorem sorted_delete (t : Table K V) (k : K)
    (hs : storeSorted t) : storeSorted (storeDelete t k) :=
  List.Pairwise.filter _ hs

theorem countKey_cons (k' : K) (v' : JSVal V) (tl : Table K V) (k : K) :
    countKey ((k', v') :: tl) k =
      if k' = k then countKey tl k + 1 else countKey tl k := by
  by_cases h : k' = k <;> simp [countKey, List.filter_cons, h]

theorem not_mem_keys_of_lt (tl : Table K V) (k : K)
    (h : ∀ b ∈ tl, k < b.1) : k ∉ tl.map Prod.fst := by
  intro hmem
  rcases List.mem_map.mp hmem with ⟨p, hp, hpk⟩
  exact lt_irrefl k (by
    have := h p hp
    rw [hpk] at this
    exact this)

theorem countKey_put_sorted (t : Table K V) (k : K) (v : JSVal V)
    (hs : storeSorted t) : countKey (storePut t k v) k = 1 := by
  induction t with
  | nil => simp [storePut, countKey, List.filter_cons]
  | cons hd tl ih =>
    obtain ⟨k', v'⟩ := hd
    rw [storeSorted, List.pairwise_cons] at hs
    obtain ⟨hhead, htl⟩ := hs
    by_cases hlt : k < k'
    · have hz : countKey ((k', v') :: tl) k = 0 := by
        rw [countKey_cons, if_neg (ne_of_gt hlt)]
        exact countKey_eq_zero tl k
          (not_mem_keys_of_lt tl k (fun b hb => lt_trans hlt (hhead b hb)))
      simp only [storePut, if_pos hlt]
      rw [countKey_cons, if_pos rfl, hz]
    · by_cases heq : k = k'
      · subst heq
        have hz : countKey tl k = 0 :=
          countKey_eq_zero tl k (not_mem_keys_of_lt tl k hhead)
        simp only [storePut, if_neg hlt, if_pos rfl, if_true]
        rw [countKey_cons, if_pos rfl, hz]
      · have hne : k' ≠ k := fun h2 => heq h2.symm
        simp only [storePut, if_neg hlt, if_neg heq]
        rw [countKey_cons, if_neg hne]
        exact ih htl

end SortedLemmas

/-! ## Scan-order lemmas (for `keys()` / `values()`) -/

section ScanLemmas

variable {K V : Type} [LinearOrder K]

theorem scan_nth (t : Table K V) (hs : storeSorted t) (i : Nat)
    (hi : i < (t.map Prod.fst).length) (hj : i < (t.map Prod.snd).length) :
    storeGet t ((t.map Prod.fst).get ⟨i, hi⟩) = (t.map Prod.snd).get ⟨i, hj⟩ := by
  induction t generalizing i with
  | nil => exact absurd hi (by simp)
  | cons hd tl ih =>
    obtain ⟨k', v'⟩ := hd
    rw [storeSorted, List.pairwise_cons] at hs
    obtain ⟨hhead, htl⟩ := hs
    cases i with
    | zero => simp [storeGet]
    | succ j =>
      have hj1 : j < (tl.map Prod.fst).length := by
        simpa using Nat.lt_of_succ_lt_succ (by simpa using hi)
      have hj2 : j < (tl.map Prod.snd).length := by
        simpa using Nat.lt_of_succ_lt_succ (by simpa using hj)
      have hstep1 : ((((k', v') :: tl).map Prod.fst).get ⟨j + 1, hi⟩)
          = (tl.map Prod.fst).get ⟨j, hj1⟩ := rfl
      have hstep2 : ((((k', v') :: tl).map Prod.snd).get ⟨j + 1, hj⟩)
          = (tl.map Prod.snd).get ⟨j, hj2⟩ := rfl
      rw [hstep1, hstep2]
      have hmem : (tl.map Prod.fst).get ⟨j, hj1⟩ ∈ tl.map Prod.fst :=
        List.get_mem (tl.map Prod.fst) j hj1
      have hgt : k' < (tl.map Prod.fst).get ⟨j, hj1⟩ := by
        rcases List.mem_map.mp hmem with ⟨p, hp, hpk⟩
        rw [← hpk]
        exact hhead p hp
      show storeGet ((k', v') :: tl) ((tl.map Prod.fst).get ⟨j, hj1⟩)
        = (tl.map Prod.snd).get ⟨j, hj2⟩
      simp only [storeGet, if_neg (ne_of_gt hgt)]
      exact ih htl j hj1 hj2

theorem keys_ascending (t : Table K V) (hs : storeSorted t) :
    List.Pairwise (fun a b => a < b) (storeGetAllKeys t) := by
  rw [storeGetAllKeys, List.pairwise_map]
  exact hs

end ScanLemmas

/-! ## Connection-plane lemmas -/

section ConnLemmas

variable {E C : Type}

theorem lazyStep_complete_opens (cfg : LazyCfg E C) (id : Nat) (r : Outcome E C) :
    (lazyStep cfg (LazyAct.complete id r)).opens = cfg.opens := rfl

theorem lazyRun_no_run_opens (acts : List (LazyAct E C))
    (h : ∀ a ∈ acts, ∀ i, a ≠ LazyAct.run i) (cfg : LazyCfg E C) :
    (lazyRun cfg acts).opens = cfg.opens := by
  induction acts generalizing cfg with
  | nil => rfl
  | cons a rest ih =>
    have ha := h a (List.mem_cons_self a rest)
    have hrest : ∀ b ∈ rest, ∀ i, b ≠ LazyAct.run i :=
      fun b hb => h b (List.mem_cons_of_mem a hb)
    cases a with
    | run i => exact absurd rfl (ha i)
    | complete id r =>
      show (lazyRun (lazyStep cfg (LazyAct.complete id r)) rest).opens = cfg.opens
      rw [ih hrest, lazyStep_complete_opens]

theorem eagerStep_opens (cfg : EagerCfg E C) (a : EAct E C) :
    (eagerStep cfg a).opens = cfg.opens := by
  cases a with
  | run i =>
    simp only [eagerStep]
    split
    · split <;> rfl
    · rfl
  | completeP r =>
    simp only [eagerStep]
    split <;> rfl

theorem eagerRun_opens (cfg : EagerCfg E C) (acts : List (EAct E C)) :
    (eagerRun cfg acts).opens = cfg.opens := by
  induction acts generalizing cfg with
  | nil => rfl
  | cons a rest ih =>
    show (eagerRun (eagerStep cfg a) rest).opens = cfg.opens
    rw [ih, eagerStep_opens]

/-- Invariant of the eager model after its promise settled with outcome `r`:
the settlement is cached forever, and every call is still unstarted or has
finished with exactly `r`. -/
def EagerPoisoned (r : Outcome E C) (cfg : EagerCfg E C) : Prop :=
  cfg.settled = some r ∧ ∀ p ∈ cfg.calls, p = EPhase.start ∨ p = EPhase.done r

theorem eagerStep_poisoned (r : Outcome E C) (cfg : EagerCfg E C)
    (hinv : EagerPoisoned r cfg) (a : EAct E C) :
    EagerPoisoned r (eagerStep cfg a) := by
  obtain ⟨hset, hcalls⟩ := hinv
  cases a with
  | run i =>
    simp only [eagerStep]
    split
    · split
      · next r2 h2 =>
        rw [hset] at h2
        have hr2 : r = r2 := Option.some.inj h2
        subst hr2
        refine ⟨hset, ?_⟩
        intro q hq
        rcases List.mem_or_eq_of_mem_set hq with hq2 | hq2
        · exact hcalls q hq2
        · right; rw [hq2]
      · next h2 =>
        rw [hset] at h2
        exact Option.noConfusion h2
    · exact ⟨hset, hcalls⟩
  | completeP r2 =>
    simp only [eagerStep]
    split
    · exact ⟨hset, hcalls⟩
    · next h2 =>
      rw [hset] at h2
      exact Option.noConfusion h2

theorem eagerRun_poisoned (r : Outcome E C) (cfg : EagerCfg E C)
    (hinv : EagerPoisoned r cfg) (acts : List (EAct E C)) :
    EagerPoisoned r (eagerRun cfg acts) := by
  induction acts generalizing cfg with
  | nil => exact hinv
  | cons a rest ih =>
    exact ih (eagerStep cfg a) (eagerStep_poisoned r cfg ⟨hinv.1, hinv.2⟩ a)

theorem eagerConstruct_fail_poisoned (n : Nat) (e : E) :
    EagerPoisoned (Outcome.err e)
      (eagerStep (eagerConstruct E C n) (EAct.completeP (Outcome.err e))) := by
  constructor
  · rfl
  · intro p hp
    have : p = EPhase.start := by
      have hmap : (eagerStep (eagerConstruct E C n)
          (EAct.completeP (Outcome.err e))).calls
          = (List.replicate n (EPhase.start : EPhase E C)).map
              (fun q => match q with
                | EPhase.awaiting => EPhase.done (Outcome.err e)
                | q => q) := rfl
      rw [hmap] at hp
      rcases List.mem_map.mp hp with ⟨q, hq, hqp⟩
      have hq2 : q = EPhase.start := List.eq_of_mem_replicate hq
      rw [hq2] at hqp
      exact hqp.symm
    left; exact this

end ConnLemmas

/-- Whether a scheduler action is the start of a public operation's
`resolve()` call (as opposed to a host event). -/
def LazyAct.isRun : LazyAct E C → Bool
  | LazyAct.run _ => true
  | LazyAct.complete _ _ => false

/-! ## Claims -/

/-- C1 (amended): constructing a lazy-variant Store Handle
(`src/unnamed/part_000`) performs no I/O and issues no open request: as long
as no public operation's `resolve()` call is run (the schedule consists of
host events only), the set of issued open requests stays empty.  (The eager
near-duplicate `src/src/index.ts` instead issues its open request at
construction — see the counterexample.) -/
theorem C1_lazy_no_open_before_first_op (E C : Type) (n : Nat)
    (acts : List (LazyAct E C)) (h : ∀ a ∈ acts, a.isRun = false) :
    (lazyRun (lazyConstruct E C n) acts).opens = [] := by
  have h2 : ∀ a ∈ acts, ∀ i, a ≠ LazyAct.run i := by
    intro a ha i hai
    have := h a ha
    rw [hai] at this
    exact Bool.noConfusion this
  rw [lazyRun_no_run_opens acts h2]
  rfl

theorem C1_lazy_no_open_before_first_op_witness :
    (∀ a ∈ [LazyAct.complete 0 (Outcome.ok 5), LazyAct.complete 1 (Outcome.err 2)],
        LazyAct.isRun a = false)
    ∧ (lazyRun (lazyConstruct Nat Nat 3)
        [LazyAct.complete 0 (Outcome.ok 5), LazyAct.complete 1 (Outcome.err 2)]).opens = [] :=
  ⟨by decide,
   C1_lazy_no_open_before_first_op Nat Nat 3
     [LazyAct.complete 0 (Outcome.ok 5), LazyAct.complete 1 (Outcome.err 2)] (by decide)⟩

/-- C1 counterexample: the eager variant (`src/src/index.ts`,
`constructor(...) { this.promise = this.open(); }`) issues its open request
at construction: a freshly constructed handle on which zero public
operations were ever invoked has already issued open request `0`. -/
theorem C1_counterexample :
    (eagerConstruct Nat Nat 0).opens ≠ [] ∧
      (eagerConstruct Nat Nat 0).opens = [0] ∧ (eagerConstruct Nat Nat 0).calls = [] := by
  refine ⟨?_, rfl, rfl⟩
  decide

/-- C2: in the lazy variant, two `resolve()` calls that both run before the
first open request settles each issue their own `indexedDB.open` request
(the `if (!this.instance)` test sees `undefined` both times, since
`this.instance` is only assigned after the first open resolves): the run
produces two open requests, the calls await distinct requests, and each call
ends with the result of its own open attempt — refuting "exactly one open
request is ever issued" and "all resolution calls share the result". -/
theorem C2_lazy_duplicate_opens :
    (lazyRun (lazyConstruct Nat Nat 2) [LazyAct.run 0, LazyAct.run 1]).opens = [0, 1]
    ∧ (lazyRun (lazyConstruct Nat Nat 2) [LazyAct.run 0, LazyAct.run 1]).calls
        = [Phase.awaiting 0, Phase.awaiting 1]
    ∧ (lazyRun (lazyConstruct Nat Nat 2)
        [LazyAct.run 0, LazyAct.run 1, LazyAct.complete 0 (Outcome.ok 10),
         LazyAct.complete 1 (Outcome.ok 20)]).calls
        = [Phase.done (Outcome.ok 10), Phase.done (Outcome.ok 20)] := by
  refine ⟨rfl, rfl, rfl⟩

/-- C3 counterexample: lazy variant, concrete schedule — operation 0 runs
`resolve()` (open request 0 issued), the host fails request 0 with error 7
(`this.instance` stays unset, operation 0 rejects with 7); operation 1 then
runs `resolve()`, and because `this.instance` is still `undefined` it issues
a second open request, which the host completes successfully — so after a
failed initial open a new open request IS issued and the subsequent
operation succeeds rather than failing identically. -/
theorem C3_counterexample :
    (lazyRun (lazyConstruct Nat Nat 2)
      [LazyAct.run 0, LazyAct.complete 0 (Outcome.err 7), LazyAct.run 1,
       LazyAct.complete 1 (Outcome.ok 42)]).opens = [0, 1]
    ∧ (lazyRun (lazyConstruct Nat Nat 2)
        [LazyAct.run 0, LazyAct.complete 0 (Outcome.err 7), LazyAct.run 1,
         LazyAct.complete 1 (Outcome.ok 42)]).calls
        = [Phase.done (Outcome.err 7), Phase.done (Outcome.ok 42)] := by
  refine ⟨rfl, rfl⟩

/-- C3 (amended): if the initial open fails, the two variants differ.
Eager variant (`src/src/index.ts`): the rejected promise is cached, so for
any subsequent schedule no new open request is ever issued (`opens` stays
`[0]`) and every operation that completes fails with exactly the original
error.  Lazy variant (`src/unnamed/part_000`): the failure is not cached —
the next public operation issues a fresh open request (two opens in total),
which may succeed, as the concrete schedule shows for any error `e` and
connection `c`. -/
theorem C3_amended (E C : Type) :
    (∀ (n : Nat) (e : E) (acts : List (EAct E C)),
      ((eagerRun (eagerStep (eagerConstruct E C n)
          (EAct.completeP (Outcome.err e))) acts).opens = [0])
      ∧ ∀ p ∈ (eagerRun (eagerStep (eagerConstruct E C n)
          (EAct.completeP (Outcome.err e))) acts).calls,
          p = EPhase.start ∨ p = EPhase.done (Outcome.err e))
    ∧ (∀ (e : E) (c : C),
      ((lazyRun (lazyConstruct E C 2)
        [LazyAct.run 0, LazyAct.complete 0 (Outcome.err e), LazyAct.run 1,
         LazyAct.complete 1 (Outcome.ok c)]).opens).length = 2
      ∧ (lazyRun (lazyConstruct E C 2)
          [LazyAct.run 0, LazyAct.complete 0 (Outcome.err e), LazyAct.run 1,
           LazyAct.complete 1 (Outcome.ok c)]).calls
          = [Phase.done (Outcome.err e), Phase.done (Outcome.ok c)]) := by
  constructor
  · intro n e acts
    have hpois := eagerRun_poisoned (Outcome.err e)
      (eagerStep (eagerConstruct E C n) (EAct.completeP (Outcome.err e)))
      (eagerConstruct_fail_poisoned n e) acts
    refine ⟨?_, hpois.2⟩
    rw [eagerRun_opens, eagerStep_opens]
    rfl
  · intro e c
    refine ⟨rfl, ?_⟩
    show (lazyRun (lazyConstruct E C 2) _).calls = _
    simp [lazyRun, lazyStep, lazyConstruct, anyAwaiting, phaseResolve,
      List.foldl, List.replicate]

theorem C3_amended_witness :
    ((eagerRun (eagerStep (eagerConstruct Nat Nat 1)
        (EAct.completeP (Outcome.err 7))) [EAct.run 0]).opens = [0])
    ∧ ((EPhase.done (Outcome.err 7) : EPhase Nat Nat) = EPhase.start
        ∨ (EPhase.done (Outcome.err 7) : EPhase Nat Nat)
            = EPhase.done (Outcome.err 7)) :=
  ⟨((C3_amended Nat Nat).1 1 7 [EAct.run 0]).1,
   ((C3_amended Nat Nat).1 1 7 [EAct.run 0]).2 (EPhase.done (Outcome.err 7)) (by decide)⟩

/-- C4: for every table state, key `k` and value `v` (including the
`undefined` sentinel), after a successful `set(k, v)`, `get(k)` resolves to
`v` and `has(k)` resolves to `true`. -/
theorem C4_set_then_get_has (K V : Type) [LinearOrder K]
    (t : Table K V) (k : K) (v : JSVal V) :
    IDBKV.get (IDBKV.set t k v) k = v ∧ IDBKV.has (IDBKV.set t k v) k = true :=
  ⟨storeGet_put_self t k v, has_put_self t k v⟩

/-- C5: for every key `k` with no record in the table, `get(k)` resolves
(does not reject) with the absent-marker `undefined`, and `has(k)` resolves
with `false`. -/
theorem C5_missing_key (K V Err : Type) [LinearOrder K]
    (t : Table K V) (k : K) (h : k ∉ t.map Prod.fst) :
    IDBKV.getF (none : Option Err) t k = Except.ok JSVal.undef
    ∧ IDBKV.hasF (none : Option Err) t k = Except.ok false := by
  constructor
  · show Except.ok (storeGet t k) = Except.ok JSVal.undef
    rw [storeGet_not_mem t k h]
  · show Except.ok (IDBKV.has t k) = Except.ok false
    rw [has_not_mem t k h]

theorem C5_missing_key_witness :
    ((2 : Nat) ∉ ([(1, JSVal.val 5)] : Table Nat Nat).map Prod.fst)
    ∧ IDBKV.getF (none : Option Nat) ([(1, JSVal.val 5)] : Table Nat Nat) 2
        = Except.ok JSVal.undef :=
  ⟨by decide, (C5_missing_key Nat Nat Nat [(1, JSVal.val 5)] 2 (by decide)).1⟩

/-- C6: `set(k, v1)` then `set(k, v2)` yields `get(k) = v2`, and on a table
satisfying the key-ordering invariant the resulting table holds exactly one
record for `k` — the second write overwrites in place, no duplicate record
appears. -/
theorem C6_overwrite (K V : Type) [LinearOrder K]
    (t : Table K V) (k : K) (v1 v2 : JSVal V) (hs : storeSorted t) :
    IDBKV.get (IDBKV.set (IDBKV.set t k v1) k v2) k = v2
    ∧ countKey (IDBKV.set (IDBKV.set t k v1) k v2) k = 1 :=
  ⟨storeGet_put_self (storePut t k v1) k v2,
   countKey_put_sorted (storePut t k v1) k v2 (sorted_put t k v1 hs)⟩

theorem C6_overwrite_witness :
    storeSorted ([(1, JSVal.val 3), (4, JSVal.val 6)] : Table Nat Nat)
    ∧ IDBKV.get (IDBKV.set (IDBKV.set
        ([(1, JSVal.val 3), (4, JSVal.val 6)] : Table Nat Nat) 1 (JSVal.val 7))
        1 (JSVal.val 9)) 1 = JSVal.val 9
    ∧ countKey (IDBKV.set (IDBKV.set
        ([(1, JSVal.val 3), (4, JSVal.val 6)] : Table Nat Nat) 1 (JSVal.val 7))
        1 (JSVal.val 9)) 1 = 1 :=
  ⟨by decide,
   (C6_overwrite Nat Nat [(1, JSVal.val 3), (4, JSVal.val 6)] 1
      (JSVal.val 7) (JSVal.val 9) (by decide)).1,
   (C6_overwrite Nat Nat [(1, JSVal.val 3), (4, JSVal.val 6)] 1
      (JSVal.val 7) (JSVal.val 9) (by decide)).2⟩

/-- C7: after `set(k, v)` then `delete(k)`, `get(k)` resolves to the
absent-marker and `has(k)` to `false`; and `delete(k)` on a key with no
record resolves without error and leaves the table unchanged (a no-op). -/
theorem C7_delete (K V Err : Type) [LinearOrder K] :
    (∀ (t : Table K V) (k : K) (v : JSVal V),
      IDBKV.get (IDBKV.delete (IDBKV.set t k v) k) k = JSVal.undef
      ∧ IDBKV.has (IDBKV.delete (IDBKV.set t k v) k) k = false)
    ∧ (∀ (t : Table K V) (k : K), k ∉ t.map Prod.fst →
      IDBKV.deleteF (none : Option Err) t k = Except.ok t) := by
  constructor
  · intro t k v
    exact ⟨storeGet_delete_self (storePut t k v) k,
           has_delete_self (storePut t k v) k⟩
  · intro t k h
    show Except.ok (storeDelete t k) = Except.ok t
    rw [storeDelete_not_mem t k h]

theorem C7_delete_witness :
    (IDBKV.get (IDBKV.delete (IDBKV.set ([] : Table Nat Nat) 1 (JSVal.val 8)) 1) 1
        = JSVal.undef)
    ∧ ((3 : Nat) ∉ ([(1, JSVal.val 8)] : Table Nat Nat).map Prod.fst)
    ∧ IDBKV.deleteF (none : Option Nat) ([(1, JSVal.val 8)] : Table Nat Nat) 3
        = Except.ok [(1, JSVal.val 8)] :=
  ⟨((C7_delete Nat Nat Nat).1 [] 1 (JSVal.val 8)).1,
   by decide,
   (C7_delete Nat Nat Nat).2 [(1, JSVal.val 8)] 3 (by decide)⟩

/-- C8: `update(k, fn)` is the sequential composition read-transform-write:
on the success path it equals `set(k, fn(get(k)))`; if the read request
fails, `update` rejects with that error for every possible write-fault and
transform (the write is never attempted) and the table is unchanged; if the
transform fails, likewise the write is never attempted and the table is
unchanged. -/
theorem C8_update_composition (K V Err : Type) [LinearOrder K] :
    (∀ (t : Table K V) (k : K) (f : JSVal V → JSVal V),
      IDBKV.update t k f = IDBKV.set t k (f (IDBKV.get t k)))
    ∧ (∀ (t : Table K V) (k : K) (f : JSVal V → JSVal V),
      IDBKV.updateF (none : Option Err) none (fun v => Except.ok (f v)) t k
        = Except.ok (IDBKV.update t k f))
    ∧ (∀ (t : Table K V) (k : K) (e : Err) (sF : Option Err)
        (act : JSVal V → Except Err (JSVal V)),
      IDBKV.updateF (some e) sF act t k = Except.error e
      ∧ afterOp (IDBKV.updateF (some e) sF act t k) t = t)
    ∧ (∀ (t : Table K V) (k : K) (e : Err) (sF : Option Err)
        (act : JSVal V → Except Err (JSVal V)),
      act (IDBKV.get t k) = Except.error e →
        IDBKV.updateF (none : Option Err) sF act t k = Except.error e
        ∧ afterOp (IDBKV.updateF (none : Option Err) sF act t k) t = t) := by
  refine ⟨fun t k f => rfl, fun t k f => rfl, fun t k e sF act => ⟨rfl, rfl⟩, ?_⟩
  intro t k e sF act h
  have hu : IDBKV.updateF (none : Option Err) sF act t k = Except.error e := by
    show (match act (storeGet t k) with
      | Except.error e2 => Except.error e2
      | Except.ok next => IDBKV.setF sF t k next) = Except.error e
    rw [show act (storeGet t k) = Except.error e from h]
  exact ⟨hu, by rw [hu]; rfl⟩

theorem C8_update_composition_witness :
    ((fun _ => (Except.error 3 : Except Nat (JSVal Nat)))
        (IDBKV.get ([(0, JSVal.val 4)] : Table Nat Nat) 0) = Except.error 3)
    ∧ IDBKV.updateF (none : Option Nat) (some 9)
        (fun _ => (Except.error 3 : Except Nat (JSVal Nat)))
        ([(0, JSVal.val 4)] : Table Nat Nat) 0 = Except.error 3
    ∧ afterOp (IDBKV.updateF (none : Option Nat) (some 9)
        (fun _ => (Except.error 3 : Except Nat (JSVal Nat)))
        ([(0, JSVal.val 4)] : Table Nat Nat) 0)
        ([(0, JSVal.val 4)] : Table Nat Nat) = [(0, JSVal.val 4)] :=
  ⟨rfl,
   ((C8_update_composition Nat Nat Nat).2.2.2 [(0, JSVal.val 4)] 0 3 (some 9)
      (fun _ => Except.error 3) rfl).1,
   ((C8_update_composition Nat Nat Nat).2.2.2 [(0, JSVal.val 4)] 0 3 (some 9)
      (fun _ => Except.error 3) rfl).2⟩

/-- C9: on any table satisfying the key-ordering invariant (which `put`,
`delete` and `clear` preserve), `keys()` is the list of exactly the keys
that have records, in strictly ascending order; `values()` has the same
length, and at every position `i`, the value is the one stored under the key
at position `i` (`get` of the i-th key yields the i-th value). -/
theorem C9_scan_order (K V : Type) [LinearOrder K] (t : Table K V)
    (hs : storeSorted t) :
    List.Pairwise (fun a b => a < b) (IDBKV.keys t)
    ∧ (IDBKV.values t).length = (IDBKV.keys t).length
    ∧ (∀ (i : Nat) (hi : i < (IDBKV.keys t).length)
        (hj : i < (IDBKV.values t).length),
        IDBKV.get t ((IDBKV.keys t).get ⟨i, hi⟩) = (IDBKV.values t).get ⟨i, hj⟩)
    ∧ (∀ k : K, k ∈ IDBKV.keys t ↔ IDBKV.has t k = true) := by
  refine ⟨keys_ascending t hs, by simp [IDBKV.values, IDBKV.keys, storeGetAll, storeGetAllKeys], ?_, ?_⟩
  · intro i hi hj
    exact scan_nth t hs i hi hj
  · intro k
    exact (has_eq_mem_keys t k).symm

theorem C9_scan_order_witness :
    storeSorted ([(1, JSVal.val 10), (3, JSVal.undef)] : Table Nat Nat)
    ∧ List.Pairwise (fun a b => a < b)
        (IDBKV.keys ([(1, JSVal.val 10), (3, JSVal.undef)] : Table Nat Nat))
    ∧ IDBKV.get ([(1, JSVal.val 10), (3, JSVal.undef)] : Table Nat Nat)
        ((IDBKV.keys ([(1, JSVal.val 10), (3, JSVal.undef)] : Table Nat Nat)).get
          ⟨0, by decide⟩)
        = (IDBKV.values ([(1, JSVal.val 10), (3, JSVal.undef)] : Table Nat Nat)).get
            ⟨0, by decide⟩ :=
  ⟨by decide,
   (C9_scan_order Nat Nat [(1, JSVal.val 10), (3, JSVal.undef)] (by decide)).1,
   (C9_scan_order Nat Nat [(1, JSVal.val 10), (3, JSVal.undef)] (by decide)).2.2.1
     0 (by decide) (by decide)⟩

/-- C10: the absent-marker is ambiguous at the public interface: storing the
host's `undefined` sentinel under `k` makes `get(k)` return the very same
marker as a missing key (`undefined`), while `has(k)` still distinguishes
the two — `true` for the stored-`undefined` record, `false` when no record
exists. -/
theorem C10_stored_undefined (K V : Type) [LinearOrder K] :
    (∀ (t : Table K V) (k : K),
      IDBKV.get (IDBKV.set t k JSVal.undef) k = JSVal.undef
      ∧ IDBKV.has (IDBKV.set t k JSVal.undef) k = true)
    ∧ (∀ (t : Table K V) (k : K), k ∉ t.map Prod.fst →
      IDBKV.get t k = JSVal.undef ∧ IDBKV.has t k = false) := by
  constructor
  · intro t k
    exact ⟨storeGet_put_self t k JSVal.undef, has_put_self t k JSVal.undef⟩
  · intro t k h
    exact ⟨storeGet_not_mem t k h, has_not_mem t k h⟩

theorem C10_stored_undefined_witness :
    (IDBKV.get (IDBKV.set ([] : Table Nat Nat) 5 JSVal.undef) 5 = JSVal.undef
      ∧ IDBKV.has (IDBKV.set ([] : Table Nat Nat) 5 JSVal.undef) 5 = true)
    ∧ ((5 : Nat) ∉ ([] : Table Nat Nat).map Prod.fst)
    ∧ (IDBKV.get ([] : Table Nat Nat) 5 = JSVal.undef
      ∧ IDBKV.has ([] : Table Nat Nat) 5 = false) :=
  ⟨(C10_stored_undefined Nat Nat).1 [] 5,
   by decide,
   (C10_stored_undefined Nat Nat).2 [] 5 (by decide)⟩
